import Mathlib

/-!
Verification of the GM BCCSP key-import and file-based keystore core
(package gm importers, bccsp option types, and the sw fileBasedKeyStore).

The Go source is shallowly embedded: byte slices become lists of naturals,
the directory becomes an explicit list of file records, the store state is
threaded explicitly, and fallible operations return Except / Option.
External collaborators (the PEM codec, the ASN.1 parsers, and the SKI
digest methods of the concrete key types, which live outside the analysed
files) are abstracted into an explicit record of functions.
-/

/-- A byte, kept as a natural number (taken mod 256 where it matters). -/
abbrev GByte := Nat

/-- One lowercase hexadecimal digit character, as used by Go
hex.EncodeToString (codepoint 48 is the zero digit, 97 the letter a). -/
def hexDigit (n : Nat) : Char :=
  Char.ofNat (if n < 10 then 48 + n else 87 + n)

/-- Go hex.EncodeToString: each byte becomes two lowercase hex characters. -/
def hexEncode (bs : List GByte) : String :=
  String.mk (bs.foldr (fun b acc => hexDigit ((b % 256) / 16) :: hexDigit (b % 16) :: acc) [])

/-- Character-list version of Go strings.HasPrefix. -/
def charsHasPre : List Char → List Char → Bool
  | _, [] => true
  | [], _ :: _ => false
  | a :: as, b :: bs => a == b && charsHasPre as bs

/-- Go strings.HasPrefix on strings. -/
def strHasPre (s p : String) : Bool := charsHasPre s.data p.data

/-- Go strings.HasSuffix on strings. -/
def strHasSuf (s p : String) : Bool := charsHasPre s.data.reverse p.data.reverse

/-- Byte-wise (here: code-point-wise) lexicographic order on names,
matching the order ioutil.ReadDir sorts a directory listing by. -/
def charsLe : List Char → List Char → Bool
  | [], _ => true
  | _ :: _, [] => false
  | a :: as, b :: bs =>
    if a.toNat < b.toNat then true
    else if b.toNat < a.toNat then false
    else charsLe as bs

/-- Filename order used by the directory listing. -/
def nameLe (a b : String) : Bool := charsLe a.data b.data

/-- One entry of a directory listing: name, directory flag, the size
reported by the listing, and the content a read would return
(none models an unreadable file). -/
structure KFile where
  name : String
  isDir : Bool
  size : Nat
  content : Option (List GByte)
deriving DecidableEq, Repr

/-- Insert a file into a name-sorted listing. -/
def insertFile (f : KFile) : List KFile → List KFile
  | [] => [f]
  | g :: gs => if nameLe f.name g.name then f :: g :: gs else g :: insertFile f gs

/-- Sort a listing by filename, as ioutil.ReadDir does. -/
def sortByName : List KFile → List KFile
  | [] => []
  | f :: fs => insertFile f (sortByName fs)

/-- The handle of an already-parsed private-key object (the interface value
Go passes around); the tag mirrors the dynamic type switch targets. -/
inductive PrivObj where
  | ecdsaPriv (k : Nat)
  | sm2Priv (k : Nat)
  | unknownPriv (n : Nat)
deriving DecidableEq, Repr

/-- The handle of an already-parsed public-key object. -/
inductive PubObj where
  | sm2Pub (k : Nat)
  | ecdsaPub (k : Nat)
  | unknownPub (n : Nat)
deriving DecidableEq, Repr

/-- The bccsp.Key variants produced and stored by the analysed code:
ecdsaPrivateKey, sm2PrivateKey, ecdsaPublicKey, sm2PublicKey,
aesPrivateKey and sm4PrivateKey. -/
inductive Key where
  | ecdsaPrivateKey (privKey : Nat)
  | sm2PrivateKey (privKey : Nat)
  | ecdsaPublicKey (pubKey : Nat)
  | sm2PublicKey (pubKey : Nat)
  | aesPrivateKey (privKey : List GByte) (exportable : Bool)
  | sm4PrivateKey (privKey : List GByte) (exportable : Bool)
deriving DecidableEq, Repr

/-- Modelled from the spec: the external collaborators of the analysed
files — the PEM codec (utils.PrivateKeyToPEM, utils.PEMtoPrivateKey,
utils.PublicKeyToPEM, utils.PEMtoPublicKey, utils.AEStoEncryptedPEM,
utils.PEMtoAES, utils.SM4EncryptPEMBlock), the ASN.1 parsers
(parsePKIXSM2PublicKey, parsePKCS8SM2PrivateKey) and the SKI digest
methods of the concrete key types, none of which are among the analysed
files. Each is an opaque function; failures are Option none. -/
structure Externals where
  skiEcdsaPriv : Nat → List GByte
  skiSm2Priv : Nat → List GByte
  skiEcdsaPub : Nat → List GByte
  skiSm2Pub : Nat → List GByte
  skiAes : List GByte → List GByte
  skiSm4 : List GByte → List GByte
  privateKeyToPEM : PrivObj → List GByte → Option (List GByte)
  pemToPrivateKey : List GByte → List GByte → Option PrivObj
  publicKeyToPEM : PubObj → List GByte → Option (List GByte)
  pemToPublicKey : List GByte → List GByte → Option PubObj
  aesToEncryptedPEM : List GByte → List GByte → Option (List GByte)
  pemToAES : List GByte → List GByte → Option (List GByte)
  sm4EncryptPEMBlock : String → List GByte → List GByte → Option (List GByte)
  parsePKIXSM2PublicKey : List GByte → Option Nat
  parsePKCS8SM2PrivateKey : List GByte → Option Nat

/-- The SKI method of each key variant, delegated to the external digests
(asymmetric keys digest their public material, symmetric keys their raw
bytes). -/
def Key.SKI (ext : Externals) : Key → List GByte
  | .ecdsaPrivateKey k => ext.skiEcdsaPriv k
  | .sm2PrivateKey k => ext.skiSm2Priv k
  | .ecdsaPublicKey k => ext.skiEcdsaPub k
  | .sm2PublicKey k => ext.skiSm2Pub k
  | .aesPrivateKey raw _ => ext.skiAes raw
  | .sm4PrivateKey raw _ => ext.skiSm4 raw

/-- The error outcomes of the fileBasedKeyStore operations; each
constructor stands for one distinct error the Go code can return. -/
inductive KSError where
  | invalidPath
  | alreadyInitialized
  | readOnlyStore
  | nilKey
  | invalidSKI
  | failedLoadingKey (ski : List GByte)
  | failedLoadingSm4Key (ski : List GByte)
  | failedLoadingSecretKey (ski : List GByte)
  | failedLoadingPublicKey (ski : List GByte)
  | secretKeyTypeNotRecognized
  | publicKeyTypeNotRecognized
  | keyNotFound (ski : List GByte) (path : String)
  | failedStoring (which : String)
  | keyTypeNotRecognized
  | ioError (path : String)
deriving DecidableEq, Repr

/-- The mutable state of a fileBasedKeyStore (path, readOnly, isOpen, pwd);
the mutex only serialises Init and is not part of the sequential model. -/
structure FileBasedKeyStore where
  path : String
  readOnly : Bool
  isOpen : Bool
  pwd : List GByte
deriving DecidableEq, Repr

/-- Read a regular file from a directory listing by exact name. -/
def readFileD (files : List KFile) (n : String) : Option (List GByte) :=
  match files.find? (fun f => f.name == n) with
  | some f => if f.isDir then none else f.content
  | none => none

/-- Write (create or overwrite) a regular file in a directory listing. -/
def writeFileD (files : List KFile) (n : String) (content : List GByte) : List KFile :=
  if files.any (fun f => f.name == n) then
    files.map (fun f => if f.name == n then { f with isDir := false, size := content.length, content := some content } else f)
  else
    files ++ [⟨n, false, content.length, some content⟩]

/-- Suffix classification the getSuffix loop applies to the first file
whose name starts with the als: sk, then pk, then key, else none. -/
def suffixOf (n : String) : String :=
  if strHasSuf n "sk" then "sk"
  else if strHasSuf n "pk" then "pk"
  else if strHasSuf n "key" then "key"
  else ""

/-- The getSuffix loop body over the sorted listing: stop at the first
name with the als as textual head, classify it, otherwise keep going. -/
def getSuffixLoop (als : String) : List KFile → String
  | [] => ""
  | f :: rest =>
    if strHasPre f.name als then suffixOf f.name else getSuffixLoop als rest

/-- fileBasedKeyStore.getSuffix: scan the sorted directory listing for the
first filename starting with the als and classify its ending. -/
def getSuffix (files : List KFile) (als : String) : String :=
  getSuffixLoop als (sortByName files)

/-- fileBasedKeyStore.loadKey: read ALIAS_key and decode it with PEMtoAES. -/
def loadKey (ext : Externals) (pwd : List GByte) (files : List KFile) (als : String) : Option (List GByte) :=
  (readFileD files (als ++ "_key")).bind (fun pem => ext.pemToAES pem pwd)

/-- fileBasedKeyStore.loadSM4Key: read ALIAS_sm4key and decode it with PEMtoAES. -/
def loadSM4Key (ext : Externals) (pwd : List GByte) (files : List KFile) (als : String) : Option (List GByte) :=
  (readFileD files (als ++ "_sm4key")).bind (fun pem => ext.pemToAES pem pwd)

/-- fileBasedKeyStore.loadPrivateKey: read ALIAS_sk and decode it. -/
def loadPrivateKey (ext : Externals) (pwd : List GByte) (files : List KFile) (als : String) : Option PrivObj :=
  (readFileD files (als ++ "_sk")).bind (fun pem => ext.pemToPrivateKey pem pwd)

/-- fileBasedKeyStore.loadPublicKey: read ALIAS_pk and decode it. -/
def loadPublicKey (ext : Externals) (pwd : List GByte) (files : List KFile) (als : String) : Option PubObj :=
  (readFileD files (als ++ "_pk")).bind (fun pem => ext.pemToPublicKey pem pwd)

/-- The body of one iteration of searchKeystoreForSKI: the key the
iteration would return, or none when the loop continues (directory entry,
oversized file, unreadable file, undecodable content, non-private decoded
object, or SKI mismatch). -/
def stepRes (ext : Externals) (pwd ski : List GByte) (f : KFile) : Option Key :=
  if f.isDir then none
  else if 65536 < f.size then none
  else
    match f.content with
    | none => none
    | some raw =>
      match ext.pemToPrivateKey raw pwd with
      | none => none
      | some (PrivObj.ecdsaPriv x) =>
        if (Key.ecdsaPrivateKey x).SKI ext = ski then some (Key.ecdsaPrivateKey x) else none
      | some (PrivObj.sm2Priv x) =>
        if (Key.sm2PrivateKey x).SKI ext = ski then some (Key.sm2PrivateKey x) else none
      | some (PrivObj.unknownPriv _) => none

/-- The searchKeystoreForSKI loop, instrumented with the names of the
files it actually reads (ReadFile calls), in order. Directories and files
larger than 64 KiB are skipped before any read. -/
def searchLoop (ext : Externals) (pwd : List GByte) (path : String) (ski : List GByte) :
    List KFile → List String × Except KSError Key
  | [] => ([], Except.error (KSError.keyNotFound ski path))
  | f :: rest =>
    if f.isDir then searchLoop ext pwd path ski rest
    else if 65536 < f.size then searchLoop ext pwd path ski rest
    else
      match f.content with
      | none =>
        let r := searchLoop ext pwd path ski rest
        (f.name :: r.1, r.2)
      | some raw =>
        match ext.pemToPrivateKey raw pwd with
        | none =>
          let r := searchLoop ext pwd path ski rest
          (f.name :: r.1, r.2)
        | some (PrivObj.ecdsaPriv x) =>
          if (Key.ecdsaPrivateKey x).SKI ext = ski then
            ([f.name], Except.ok (Key.ecdsaPrivateKey x))
          else
            let r := searchLoop ext pwd path ski rest
            (f.name :: r.1, r.2)
        | some (PrivObj.sm2Priv x) =>
          if (Key.sm2PrivateKey x).SKI ext = ski then
            ([f.name], Except.ok (Key.sm2PrivateKey x))
          else
            let r := searchLoop ext pwd path ski rest
            (f.name :: r.1, r.2)
        | some (PrivObj.unknownPriv _) =>
          let r := searchLoop ext pwd path ski rest
          (f.name :: r.1, r.2)

/-- fileBasedKeyStore.searchKeystoreForSKI over the sorted listing,
returning the read trace together with the outcome. -/
def searchKeystoreForSKI (ext : Externals) (ks : FileBasedKeyStore) (files : List KFile) (ski : List GByte) :
    List String × Except KSError Key :=
  searchLoop ext ks.pwd ks.path ski (sortByName files)

/-- fileBasedKeyStore.GetKey: validate the SKI, look up the suffix of the
first filename starting with its hex encoding, dispatch to the matching
loader, and fall back to the linear scan when no known suffix is found. -/
def GetKey (ext : Externals) (ks : FileBasedKeyStore) (files : List KFile) (ski : List GByte) :
    Except KSError Key :=
  if ski.length = 0 then Except.error KSError.invalidSKI
  else
    let als := hexEncode ski
    match getSuffix files als with
    | "key" =>
      match loadKey ext ks.pwd files als with
      | none => Except.error (KSError.failedLoadingKey ski)
      | some key => Except.ok (Key.aesPrivateKey key false)
    | "sm4key" =>
      match loadSM4Key ext ks.pwd files als with
      | none => Except.error (KSError.failedLoadingSm4Key ski)
      | some key => Except.ok (Key.sm4PrivateKey key false)
    | "sk" =>
      match loadPrivateKey ext ks.pwd files als with
      | none => Except.error (KSError.failedLoadingSecretKey ski)
      | some (PrivObj.ecdsaPriv x) => Except.ok (Key.ecdsaPrivateKey x)
      | some (PrivObj.sm2Priv x) => Except.ok (Key.sm2PrivateKey x)
      | some (PrivObj.unknownPriv _) => Except.error KSError.secretKeyTypeNotRecognized
    | "pk" =>
      match loadPublicKey ext ks.pwd files als with
      | none => Except.error (KSError.failedLoadingPublicKey ski)
      | some (PubObj.ecdsaPub x) => Except.ok (Key.ecdsaPublicKey x)
      | some (PubObj.sm2Pub x) => Except.ok (Key.sm2PublicKey x)
      | some (PubObj.unknownPub _) => Except.error KSError.publicKeyTypeNotRecognized
    | _ => (searchKeystoreForSKI ext ks files ski).2

/-- fileBasedKeyStore.storePrivateKey: encode with the codec, then write
ALIAS_sk. -/
def storePrivateKey (ext : Externals) (pwd : List GByte) (files : List KFile) (als : String)
    (obj : PrivObj) : Option (List KFile) :=
  (ext.privateKeyToPEM obj pwd).map (fun b => writeFileD files (als ++ "_sk") b)

/-- fileBasedKeyStore.storePublicKey: encode with the codec, then write
ALIAS_pk. -/
def storePublicKey (ext : Externals) (pwd : List GByte) (files : List KFile) (als : String)
    (obj : PubObj) : Option (List KFile) :=
  (ext.publicKeyToPEM obj pwd).map (fun b => writeFileD files (als ++ "_pk") b)

/-- fileBasedKeyStore.storeKey: encrypt the AES raw bytes, then write
ALIAS_key. -/
def storeKey (ext : Externals) (pwd : List GByte) (files : List KFile) (als : String)
    (raw : List GByte) : Option (List KFile) :=
  (ext.aesToEncryptedPEM raw pwd).map (fun b => writeFileD files (als ++ "_key") b)

/-- fileBasedKeyStore.storeSm4Key: encrypt the SM4 raw bytes as an
"SM4 PRIVATE KEY" block, then write ALIAS_sm4key. -/
def storeSm4Key (ext : Externals) (pwd : List GByte) (files : List KFile) (als : String)
    (raw : List GByte) : Option (List KFile) :=
  (ext.sm4EncryptPEMBlock "SM4 PRIVATE KEY" raw pwd).map
    (fun b => writeFileD files (als ++ "_sm4key") b)

/-- fileBasedKeyStore.StoreKey: reject a read-only store, reject a nil
key, then dispatch on the key's concrete variant to the matching
serializer; the listing returned is the directory after the call. -/
def StoreKey (ext : Externals) (ks : FileBasedKeyStore) (files : List KFile) (k : Option Key) :
    Except KSError Unit × List KFile :=
  if ks.readOnly then (Except.error KSError.readOnlyStore, files)
  else
    match k with
    | none => (Except.error KSError.nilKey, files)
    | some key =>
      match key with
      | Key.ecdsaPrivateKey kk =>
        match storePrivateKey ext ks.pwd files (hexEncode (key.SKI ext)) (PrivObj.ecdsaPriv kk) with
        | none => (Except.error (KSError.failedStoring "ECDSA private"), files)
        | some files1 => (Except.ok (), files1)
      | Key.sm2PrivateKey kk =>
        match storePrivateKey ext ks.pwd files (hexEncode (key.SKI ext)) (PrivObj.sm2Priv kk) with
        | none => (Except.error (KSError.failedStoring "SM2 private"), files)
        | some files1 => (Except.ok (), files1)
      | Key.ecdsaPublicKey kk =>
        match storePublicKey ext ks.pwd files (hexEncode (key.SKI ext)) (PubObj.ecdsaPub kk) with
        | none => (Except.error (KSError.failedStoring "ECDSA public"), files)
        | some files1 => (Except.ok (), files1)
      | Key.sm2PublicKey kk =>
        match storePublicKey ext ks.pwd files (hexEncode (key.SKI ext)) (PubObj.sm2Pub kk) with
        | none => (Except.error (KSError.failedStoring "SM2 public"), files)
        | some files1 => (Except.ok (), files1)
      | Key.aesPrivateKey raw _ =>
        match storeKey ext ks.pwd files (hexEncode (key.SKI ext)) raw with
        | none => (Except.error (KSError.failedStoring "AES"), files)
        | some files1 => (Except.ok (), files1)
      | Key.sm4PrivateKey raw _ =>
        match storeSm4Key ext ks.pwd files (hexEncode (key.SKI ext)) raw with
        | none => (Except.error (KSError.failedStoring "SM4"), files)
        | some files1 => (Except.ok (), files1)

/-- A directory on disk: its permission mode and its file listing. -/
structure KDir where
  mode : Nat
  dfiles : List KFile
deriving DecidableEq, Repr

/-- The file system seen by the store lifecycle: an association of
directory paths to directories. -/
abbrev FileSys := List (String × KDir)

/-- Look a directory up by path. -/
def lookupDir (fs : FileSys) (p : String) : Option KDir :=
  (fs.find? (fun e => e.1 == p)).map (fun e => e.2)

/-- os.Stat-based dirExists: the path names an existing directory. -/
def dirExists (fs : FileSys) (p : String) : Bool :=
  (lookupDir fs p).isSome

/-- dirEmpty: none when the directory cannot be opened, otherwise whether
its listing is empty. -/
def dirEmpty (fs : FileSys) (p : String) : Option Bool :=
  (lookupDir fs p).map (fun d => d.dfiles.isEmpty)

/-- os.MkdirAll with mode 0o755 as in createKeyStore: creates the
directory when missing, leaves an existing one untouched. -/
def mkdirAll (fs : FileSys) (p : String) : FileSys :=
  if dirExists fs p then fs else (p, ⟨0o755, []⟩) :: fs

/-- fileBasedKeyStore.Init: reject an empty path, reject an already open
store, record path, a copy of the password and the read-only flag, then
create the directory when missing or empty and mark the store open. The
triple returned is (outcome, store state after, file system after). -/
def Init (ks : FileBasedKeyStore) (pwd : List GByte) (path : String) (readOnly : Bool)
    (fs : FileSys) : Except KSError Unit × FileBasedKeyStore × FileSys :=
  if path.length = 0 then (Except.error KSError.invalidPath, ks, fs)
  else if ks.isOpen then (Except.error KSError.alreadyInitialized, ks, fs)
  else
    let ks1 : FileBasedKeyStore :=
      { path := path, readOnly := readOnly, isOpen := ks.isOpen, pwd := pwd }
    if dirExists fs path then
      match dirEmpty fs path with
      | none => (Except.error (KSError.ioError path), ks1, fs)
      | some true => (Except.ok (), { ks1 with isOpen := true }, mkdirAll fs path)
      | some false => (Except.ok (), { ks1 with isOpen := true }, fs)
    else
      (Except.ok (), { ks1 with isOpen := true }, mkdirAll fs path)

/-- The errors the importers can return; each constructor stands for one
distinct error message in the source (nilImporterPanic models the Go
panic on invoking a nil importer fetched from an unpopulated registry
entry). -/
inductive ImpError where
  | expectedByteArray
  | nilRaw
  | invalidKeyLength (n : Nat)
  | expectedByteArrayPub
  | emptyRawPub
  | pkixParseFailure
  | expectedByteArrayPriv
  | emptyRawPriv
  | pkcs8ParseFailure
  | expectedSM2PublicKey
  | expectedX509Cert
  | certPKNotRecognized
  | nilImporterPanic
deriving DecidableEq, Repr

/-- The public-key value embedded in a parsed X.509 certificate (the
dynamic type the certificate importer switches on). -/
inductive CertPK where
  | sm2cert (k : Nat)
  | ecdsacert (k : Nat)
  | otherAlg (n : Nat)
deriving DecidableEq, Repr

/-- A parsed x509.Certificate, reduced to the embedded public key the
importer inspects. -/
structure X509Cert where
  publicKey : CertPK
deriving DecidableEq, Repr

/-- The raw material handed to KeyImport: a byte slice (none models a nil
slice), an already-parsed key object, a parsed certificate, or any other
value. -/
inductive RawMaterial where
  | bytes (b : Option (List GByte))
  | privObj (k : PrivObj)
  | pubObj (k : PubObj)
  | cert (c : X509Cert)
  | otherObj (n : Nat)
deriving DecidableEq, Repr

/-- The KeyImportOpts variants the analysed importers receive, each with
its Temporary field. -/
inductive KeyImportOpts where
  | sm4Opts (temporary : Bool)
  | sm2PKIXOpts (temporary : Bool)
  | sm2PrivOpts (temporary : Bool)
  | sm2GoOpts (temporary : Bool)
  | x509Opts (temporary : Bool)
deriving DecidableEq, Repr

/-- The Ephemeral accessor shared by every options type. -/
def KeyImportOpts.Ephemeral : KeyImportOpts → Bool
  | .sm4Opts t => t
  | .sm2PKIXOpts t => t
  | .sm2PrivOpts t => t
  | .sm2GoOpts t => t
  | .x509Opts t => t

/-- The registry's key: the reflect.TypeOf of an options value. -/
inductive OptsKind where
  | sm4K
  | sm2PKIXK
  | sm2PrivK
  | sm2GoK
  | x509K
deriving DecidableEq, Repr

/-- The importer implementations registered in the analysed package. -/
inductive ImporterK where
  | sm4I
  | sm2PKIXI
  | sm2PrivI
  | sm2GoI
  | x509I
deriving DecidableEq, Repr

/-- The KeyImporters registry of a CSP: options type to importer. -/
structure CSP where
  keyImporters : OptsKind → Option ImporterK

/-- sm4ImportKeyOptsKeyImporter.KeyImport: demand a byte slice, reject a
nil slice, demand exactly 16 bytes, and wrap the bytes unchanged. -/
def sm4KeyImport (raw : RawMaterial) (_opts : KeyImportOpts) : Except ImpError Key :=
  match raw with
  | .bytes none => Except.error ImpError.nilRaw
  | .bytes (some b) =>
    if b.length ≠ 16 then Except.error (ImpError.invalidKeyLength b.length)
    else Except.ok (Key.sm4PrivateKey b false)
  | _ => Except.error ImpError.expectedByteArray

/-- sm2PKIXPublicKeyImportOptsKeyImporter.KeyImport: demand a non-empty
byte slice and parse it as a PKIX SM2 public key. -/
def sm2PKIXKeyImport (ext : Externals) (raw : RawMaterial) (_opts : KeyImportOpts) :
    Except ImpError Key :=
  match raw with
  | .bytes ob =>
    match ob.getD [] with
    | [] => Except.error ImpError.emptyRawPub
    | der =>
      match ext.parsePKIXSM2PublicKey der with
      | none => Except.error ImpError.pkixParseFailure
      | some k => Except.ok (Key.sm2PublicKey k)
  | _ => Except.error ImpError.expectedByteArrayPub

/-- sm2PrivateKeyImportOptsKeyImporter.KeyImport: demand a non-empty byte
slice and parse it as a PKCS#8 SM2 private key. -/
def sm2PrivKeyImport (ext : Externals) (raw : RawMaterial) (_opts : KeyImportOpts) :
    Except ImpError Key :=
  match raw with
  | .bytes ob =>
    match ob.getD [] with
    | [] => Except.error ImpError.emptyRawPriv
    | der =>
      match ext.parsePKCS8SM2PrivateKey der with
      | none => Except.error ImpError.pkcs8ParseFailure
      | some k => Except.ok (Key.sm2PrivateKey k)
  | _ => Except.error ImpError.expectedByteArrayPriv

/-- sm2GoPublicKeyImportOptsKeyImporter.KeyImport: demand an
already-parsed sm2.PublicKey object and wrap it. -/
def sm2GoKeyImport (raw : RawMaterial) (_opts : KeyImportOpts) : Except ImpError Key :=
  match raw with
  | .pubObj (PubObj.sm2Pub k) => Except.ok (Key.sm2PublicKey k)
  | _ => Except.error ImpError.expectedSM2PublicKey

/-- What each registered importer does when invoked on an already-parsed
public-key object, derived case by case from the source: the byte-slice
importers fail their type assertion, the sm2 object importer matches only
an sm2 public key, the certificate importer fails its own assertion. -/
def applyImporterToPub (ext : Externals) (imp : ImporterK) (pk : PubObj)
    (opts : KeyImportOpts) : Except ImpError Key :=
  match imp with
  | .sm4I => sm4KeyImport (RawMaterial.pubObj pk) opts
  | .sm2PKIXI => sm2PKIXKeyImport ext (RawMaterial.pubObj pk) opts
  | .sm2PrivI => sm2PrivKeyImport ext (RawMaterial.pubObj pk) opts
  | .sm2GoI => sm2GoKeyImport (RawMaterial.pubObj pk) opts
  | .x509I => Except.error ImpError.expectedX509Cert

/-- x509PublicKeyImportOptsKeyImporter.KeyImport: demand a parsed
certificate, switch on its embedded public key's dynamic type, and for an
sm2 public key re-dispatch through its own CSP's registry under the
SM2GoPublicKeyImportOpts type, re-wrapping the caller's Ephemeral flag.
The csp argument is the importer's bccsp field, which the construction
(outside the analysed files) wires to the registry the importer is
registered in. -/
def x509KeyImport (ext : Externals) (csp : CSP) (raw : RawMaterial) (opts : KeyImportOpts) :
    Except ImpError Key :=
  match raw with
  | .cert c =>
    match c.publicKey with
    | CertPK.sm2cert k =>
      match csp.keyImporters OptsKind.sm2GoK with
      | some imp2 =>
        applyImporterToPub ext imp2 (PubObj.sm2Pub k) (KeyImportOpts.sm2GoOpts opts.Ephemeral)
      | none => Except.error ImpError.nilImporterPanic
    | _ => Except.error ImpError.certPKNotRecognized
  | _ => Except.error ImpError.expectedX509Cert

/-- Run a registered importer on arbitrary raw material. -/
def runImporter (ext : Externals) (csp : CSP) (imp : ImporterK) (raw : RawMaterial)
    (opts : KeyImportOpts) : Except ImpError Key :=
  match imp with
  | .sm4I => sm4KeyImport raw opts
  | .sm2PKIXI => sm2PKIXKeyImport ext raw opts
  | .sm2PrivI => sm2PrivKeyImport ext raw opts
  | .sm2GoI => sm2GoKeyImport raw opts
  | .x509I => x509KeyImport ext csp raw opts

/-- Tag-based encoding of a private-key object, used by the concrete
codec instance below. -/
def encPriv : PrivObj → List GByte
  | PrivObj.ecdsaPriv k => [1, k]
  | PrivObj.sm2Priv k => [2, k]
  | PrivObj.unknownPriv n => [3, n]

/-- Tag-based encoding of a public-key object. -/
def encPub : PubObj → List GByte
  | PubObj.ecdsaPub k => [4, k]
  | PubObj.sm2Pub k => [5, k]
  | PubObj.unknownPub n => [6, n]

/-- A concrete, executable instance of the external collaborators: a
tag-based invertible codec and short deterministic digests, used to
evaluate the embedded operations on concrete inputs. -/
def ext0 : Externals where
  skiEcdsaPriv := fun k => [k % 256]
  skiSm2Priv := fun k => [k % 256]
  skiEcdsaPub := fun k => [k % 256]
  skiSm2Pub := fun k => [k % 256]
  skiAes := fun raw => raw.take 2
  skiSm4 := fun raw => raw.take 2
  privateKeyToPEM := fun obj _ => some (encPriv obj)
  pemToPrivateKey := fun b _ =>
    match b with
    | [1, k] => some (PrivObj.ecdsaPriv k)
    | [2, k] => some (PrivObj.sm2Priv k)
    | [3, n] => some (PrivObj.unknownPriv n)
    | _ => none
  publicKeyToPEM := fun obj _ => some (encPub obj)
  pemToPublicKey := fun b _ =>
    match b with
    | [4, k] => some (PubObj.ecdsaPub k)
    | [5, k] => some (PubObj.sm2Pub k)
    | [6, n] => some (PubObj.unknownPub n)
    | _ => none
  aesToEncryptedPEM := fun raw _ => some (7 :: raw)
  pemToAES := fun b _ =>
    match b with
    | 7 :: raw => some raw
    | _ => none
  sm4EncryptPEMBlock := fun _ raw _ => some (8 :: raw)
  parsePKIXSM2PublicKey := fun b =>
    match b with
    | [9, k] => some k
    | _ => none
  parsePKCS8SM2PrivateKey := fun b =>
    match b with
    | [10, k] => some k
    | _ => none


/-- Whether one iteration of the searchKeystoreForSKI loop issues a
ReadFile call on the entry: a regular file of size at most 64 KiB. -/
def stepRead (f : KFile) : Bool := !f.isDir && decide (f.size ≤ 65536)

/-- An open, writable store at a fixed path with an absent password. -/
def ksOpen : FileBasedKeyStore := ⟨"/ks", false, true, []⟩

/-- An open store initialized with the read-only flag set. -/
def ksRO : FileBasedKeyStore := ⟨"/ks", true, true, []⟩

/-- A freshly allocated, uninitialized store value. -/
def ksFresh : FileBasedKeyStore := ⟨"", false, false, []⟩

/-- Sixteen zero bytes of SM4 raw key material. -/
def sm4raw16 : List GByte := List.replicate 16 0

/-- A stored private-key file whose identifier hex encoding is abcd. -/
def fileAbcdSk : KFile := ⟨"abcd_sk", false, 10, some []⟩

/-- A directory with one oversized file and one valid private-key file
below the size ceiling, both decoding to the sm2 private key 5. -/
def filesScan : List KFile :=
  [⟨"big", false, 100000, some [2, 5]⟩, ⟨"k1", false, 10, some [2, 5]⟩]

/-- A registry populated as the analysed package registers its importers. -/
def csp0 : CSP :=
  ⟨fun k =>
    match k with
    | OptsKind.sm4K => some ImporterK.sm4I
    | OptsKind.sm2PKIXK => some ImporterK.sm2PKIXI
    | OptsKind.sm2PrivK => some ImporterK.sm2PrivI
    | OptsKind.sm2GoK => some ImporterK.sm2GoI
    | OptsKind.x509K => some ImporterK.x509I⟩

/-- A file system holding one non-empty keystore directory. -/
def fsNonEmpty : FileSys := [("/ks", ⟨0o755, [fileAbcdSk]⟩)]

/-- The first hit of a per-file selector over a listing, used to state
what the fallback scan returns. -/
def firstKey (g : KFile → Option Key) : List KFile → Option Key
  | [] => none
  | f :: rest =>
    match g f with
    | some k => some k
    | none => firstKey g rest

/-- C1: storing then retrieving round-trips for an ECDSA private key, but
fails for an SM4 key: the stored filename ends in sm4key, getSuffix
classifies it as suffix key, and loadKey then reads the absent
HEX_key file, so GetKey returns a failed-loading error instead of the
stored key. -/
theorem c1_sm4_store_then_get_fails :
    (StoreKey ext0 ksOpen [] (some (Key.sm4PrivateKey sm4raw16 false))).1 = Except.ok ()
    ∧ GetKey ext0 ksOpen (StoreKey ext0 ksOpen [] (some (Key.sm4PrivateKey sm4raw16 false))).2
        ((Key.sm4PrivateKey sm4raw16 false).SKI ext0)
      = Except.error (KSError.failedLoadingKey [0, 0])
    ∧ (StoreKey ext0 ksOpen [] (some (Key.ecdsaPrivateKey 3))).1 = Except.ok ()
    ∧ GetKey ext0 ksOpen (StoreKey ext0 ksOpen [] (some (Key.ecdsaPrivateKey 3))).2
        ((Key.ecdsaPrivateKey 3).SKI ext0)
      = Except.ok (Key.ecdsaPrivateKey 3) :=
  ⟨rfl, rfl, rfl, rfl⟩

/-- C2: the SM4 importer fails on every non-byte input, on a nil byte
slice, and on any byte length other than 16; on exactly 16 bytes it
returns a symmetric key holding the input bytes unchanged. -/
theorem c2_sm4_import_length :
    ∀ (o : KeyImportOpts),
      (∀ b : List GByte,
        sm4KeyImport (RawMaterial.bytes (some b)) o =
          if b.length = 16 then Except.ok (Key.sm4PrivateKey b false)
          else Except.error (ImpError.invalidKeyLength b.length))
      ∧ sm4KeyImport (RawMaterial.bytes none) o = Except.error ImpError.nilRaw
      ∧ (∀ raw : RawMaterial, (∀ ob, raw ≠ RawMaterial.bytes ob) →
          sm4KeyImport raw o = Except.error ImpError.expectedByteArray) := by
  intro o
  refine ⟨fun b => ?_, rfl, fun raw h => ?_⟩
  · by_cases hb : b.length = 16 <;> simp [sm4KeyImport, hb]
  · cases raw with
    | bytes ob => exact absurd rfl (h ob)
    | privObj k => rfl
    | pubObj k => rfl
    | cert c => rfl
    | otherObj n => rfl

/-- C2 witness: the import outcomes at concrete inputs of length 16,
length 3, nil, and a non-byte input. -/
theorem c2_sm4_import_length_witness :
    sm4KeyImport (RawMaterial.bytes (some sm4raw16)) (KeyImportOpts.sm4Opts false)
      = Except.ok (Key.sm4PrivateKey sm4raw16 false)
    ∧ sm4KeyImport (RawMaterial.bytes (some [1, 2, 3])) (KeyImportOpts.sm4Opts false)
      = Except.error (ImpError.invalidKeyLength 3)
    ∧ sm4KeyImport (RawMaterial.bytes none) (KeyImportOpts.sm4Opts false)
      = Except.error ImpError.nilRaw
    ∧ sm4KeyImport (RawMaterial.otherObj 0) (KeyImportOpts.sm4Opts false)
      = Except.error ImpError.expectedByteArray := by
  have h := c2_sm4_import_length (KeyImportOpts.sm4Opts false)
  exact ⟨by simpa [sm4raw16] using h.1 sm4raw16, by simpa using h.1 [1, 2, 3],
    h.2.1, h.2.2 (RawMaterial.otherObj 0) (fun ob => by simp)⟩

/-- C3: a read-only store rejects every StoreKey call, for every argument
including nil, with the read-only error, leaving the directory unchanged;
the check precedes any key validation. -/
theorem c3_readonly_store_rejects :
    ∀ (ext : Externals) (ks : FileBasedKeyStore) (files : List KFile) (k : Option Key),
      ks.readOnly = true →
      StoreKey ext ks files k = (Except.error KSError.readOnlyStore, files) := by
  intro ext ks files k h
  simp [StoreKey, h]

/-- C3 witness: the read-only store rejects both a nil key and a valid
SM2 private key. -/
theorem c3_readonly_store_rejects_witness :
    StoreKey ext0 ksRO [] none = (Except.error KSError.readOnlyStore, [])
    ∧ StoreKey ext0 ksRO [] (some (Key.sm2PrivateKey 5)) = (Except.error KSError.readOnlyStore, []) :=
  ⟨c3_readonly_store_rejects ext0 ksRO [] none rfl,
   c3_readonly_store_rejects ext0 ksRO [] (some (Key.sm2PrivateKey 5)) rfl⟩

/-- C10: GetKey with a zero-length identifier fails with the invalid-SKI
error for every directory content, and the outcome does not depend on
the directory at all (no listing is consulted and no fallback scan runs). -/
theorem c10_zero_length_ski :
    ∀ (ext : Externals) (ks : FileBasedKeyStore) (files files' : List KFile),
      GetKey ext ks files [] = Except.error KSError.invalidSKI
      ∧ GetKey ext ks files [] = GetKey ext ks files' [] := by
  intro ext ks files files'
  constructor <;> rfl

/-- A store whose isOpen flag is set rejects a further Init with a
non-empty path, leaving store and file system untouched. -/
theorem init_on_open (ks : FileBasedKeyStore) (h : ks.isOpen = true)
    (pwd : List GByte) (path : String) (ro : Bool) (fs : FileSys) (hp : path.length ≠ 0) :
    Init ks pwd path ro fs = (Except.error KSError.alreadyInitialized, ks, fs) := by
  unfold Init
  rw [if_neg hp, if_pos h]

/-- A successful Init always leaves the store open. -/
theorem init_ok_isOpen (ks : FileBasedKeyStore) (pwd : List GByte) (path : String)
    (ro : Bool) (fs : FileSys) (h : (Init ks pwd path ro fs).1 = Except.ok ()) :
    (Init ks pwd path ro fs).2.1.isOpen = true := by
  unfold Init at *
  split at h
  · simp at h
  · split at h
    · simp at h
    · split at h
      · split at h <;> simp_all
      · simp_all

/-- C6 counterexample: after a successful first Init, a second Init with
an empty path fails with the invalid-path error, which is not the
already-initialized error the claim requires of every subsequent call. -/
theorem c6_counterexample_second_init_error :
    (Init ksFresh [] "d" false []).1 = Except.ok ()
    ∧ (Init (Init ksFresh [] "d" false []).2.1 [] "" false (Init ksFresh [] "d" false []).2.2).1
        = Except.error KSError.invalidPath
    ∧ KSError.invalidPath ≠ KSError.alreadyInitialized :=
  ⟨rfl, rfl, by decide⟩

/-- C6 (amended): a successful Init leaves the store open; afterwards
every further Init with a non-empty path fails with the
already-initialized error and every further Init with an empty path
fails with the invalid-path error, in both cases changing neither the
store state nor the file system. -/
theorem c6_double_init_amended :
    ∀ (ks : FileBasedKeyStore) (pwd : List GByte) (path : String) (ro : Bool) (fs : FileSys),
      (Init ks pwd path ro fs).1 = Except.ok () →
      (Init ks pwd path ro fs).2.1.isOpen = true
      ∧ (∀ (pwd2 : List GByte) (path2 : String) (ro2 : Bool) (fs2 : FileSys),
          path2.length ≠ 0 →
          Init (Init ks pwd path ro fs).2.1 pwd2 path2 ro2 fs2
            = (Except.error KSError.alreadyInitialized, (Init ks pwd path ro fs).2.1, fs2))
      ∧ (∀ (pwd2 : List GByte) (ro2 : Bool) (fs2 : FileSys),
          Init (Init ks pwd path ro fs).2.1 pwd2 "" ro2 fs2
            = (Except.error KSError.invalidPath, (Init ks pwd path ro fs).2.1, fs2)) := by
  intro ks pwd path ro fs h
  have hopen := init_ok_isOpen ks pwd path ro fs h
  refine ⟨hopen, fun pwd2 path2 ro2 fs2 hp => init_on_open _ hopen pwd2 path2 ro2 fs2 hp,
    fun pwd2 ro2 fs2 => ?_⟩
  rfl

/-- C6 witness: the amended behavior evaluated on a concrete first Init
into a fresh directory followed by a concrete second Init. -/
theorem c6_double_init_amended_witness :
    (Init ksFresh [] "d" false []).2.1.isOpen = true
    ∧ Init (Init ksFresh [] "d" false []).2.1 [1] "e" true []
        = (Except.error KSError.alreadyInitialized, (Init ksFresh [] "d" false []).2.1, []) := by
  have h := c6_double_init_amended ksFresh [] "d" false [] rfl
  exact ⟨h.1, h.2.1 [1] "e" true [] (by decide)⟩

/-- C7: Init on an existing non-empty directory succeeds, marks the store
open, and returns the file system exactly as it was — no file is deleted,
created, or mutated anywhere; Init with an empty path always fails. -/
theorem c7_idempotent_open :
    ∀ (ks : FileBasedKeyStore) (pwd : List GByte) (path : String) (ro : Bool)
      (fs : FileSys) (d : KDir),
      ks.isOpen = false → path.length ≠ 0 → lookupDir fs path = some d → d.dfiles ≠ [] →
      (Init ks pwd path ro fs = (Except.ok (), ⟨path, ro, true, pwd⟩, fs)
      ∧ ∀ (ks2 : FileBasedKeyStore) (pwd2 : List GByte) (ro2 : Bool) (fs2 : FileSys),
          Init ks2 pwd2 "" ro2 fs2 = (Except.error KSError.invalidPath, ks2, fs2)) := by
  intro ks pwd path ro fs d h hp hl hne
  refine ⟨?_, fun ks2 pwd2 ro2 fs2 => rfl⟩
  have hex : dirExists fs path = true := by simp [dirExists, hl]
  have hie : d.dfiles.isEmpty = false := by
    cases hd : d.dfiles with
    | nil => exact absurd hd hne
    | cons a l => rfl
  have hem : dirEmpty fs path = some false := by simp [dirEmpty, hl, hie]
  unfold Init
  rw [if_neg hp, if_neg (by simp [h]), if_pos hex, hem]

/-- C7 witness: opening a store over an existing directory holding one
private-key file leaves the file system untouched, and an empty-path Init
fails. -/
theorem c7_idempotent_open_witness :
    Init ksFresh [2] "/ks" true fsNonEmpty
      = (Except.ok (), ⟨"/ks", true, true, [2]⟩, fsNonEmpty)
    ∧ Init ksOpen [] "" false [] = (Except.error KSError.invalidPath, ksOpen, []) := by
  have h := c7_idempotent_open ksFresh [2] "/ks" true fsNonEmpty ⟨0o755, [fileAbcdSk]⟩
    rfl (by decide) rfl (by decide)
  exact ⟨h.1, h.2 ksOpen [] false []⟩

/-- C9 counterexample: Init on a missing directory creates it with mode
0o755, which is not the owner-only mode 0o700 the claim requires — the
group and other permission bits (the low six bits) are not all zero. -/
theorem c9_counterexample_mode :
    lookupDir (Init ksFresh [] "d" false []).2.2 "d" = some ⟨0o755, []⟩
    ∧ (0o755 : Nat) ≠ 0o700
    ∧ (0o755 : Nat) % 64 ≠ 0 :=
  ⟨rfl, by decide, by decide⟩

/-- C9 (amended): when the directory does not exist, Init creates it with
mode 0o755 (owner read/write/execute, group and others read/execute) and
marks the store open. -/
theorem c9_create_dir_0755 :
    ∀ (ks : FileBasedKeyStore) (pwd : List GByte) (path : String) (ro : Bool) (fs : FileSys),
      ks.isOpen = false → path.length ≠ 0 → lookupDir fs path = none →
      (Init ks pwd path ro fs = (Except.ok (), ⟨path, ro, true, pwd⟩, (path, ⟨0o755, []⟩) :: fs)
      ∧ lookupDir (Init ks pwd path ro fs).2.2 path = some ⟨0o755, []⟩) := by
  intro ks pwd path ro fs h hp hl
  have hex : dirExists fs path = false := by simp [dirExists, hl]
  have heq : Init ks pwd path ro fs
      = (Except.ok (), ⟨path, ro, true, pwd⟩, (path, ⟨0o755, []⟩) :: fs) := by
    unfold Init
    rw [if_neg hp, if_neg (by simp [h]), if_neg (by simp [hex])]
    simp [mkdirAll, hex]
  refine ⟨heq, ?_⟩
  rw [heq]
  simp [lookupDir, List.find?]

/-- C9 witness: the amended creation behavior evaluated on a fresh store
and an empty file system. -/
theorem c9_create_dir_0755_witness :
    Init ksFresh [] "newdir" false []
      = (Except.ok (), ⟨"newdir", false, true, []⟩, [("newdir", ⟨0o755, []⟩)])
    ∧ lookupDir (Init ksFresh [] "newdir" false []).2.2 "newdir" = some ⟨0o755, []⟩ :=
  c9_create_dir_0755 ksFresh [] "newdir" false [] rfl (by decide) rfl

/-- The getSuffix loop returns the classification of the first listing
entry whose name textually starts with the als, and the empty string
when no entry does. -/
theorem getSuffixLoop_eq_find (als : String) :
    ∀ l : List KFile,
      getSuffixLoop als l =
        match l.find? (fun f => strHasPre f.name als) with
        | none => ""
        | some f => suffixOf f.name := by
  intro l
  induction l with
  | nil => rfl
  | cons f rest ih =>
    cases h : strHasPre f.name als with
    | true => simp [getSuffixLoop, h, List.find?_cons_of_pos, ih]
    | false => simp [getSuffixLoop, h, List.find?_cons_of_neg, ih]

/-- C8 counterexample: for the identifier byte 0xab (hex "ab") and a
directory holding the file abcd_sk of the two-byte identifier 0xabcd,
getSuffix selects that file (returning "sk") although the filename's
prefix before the first underscore is "abcd", not "ab" — the lookup does
take the longer identifier's file. -/
theorem c8_counterexample_textual_head :
    getSuffix [fileAbcdSk] (hexEncode [0xab]) = "sk"
    ∧ hexEncode [0xab] = "ab"
    ∧ fileAbcdSk.name.data.takeWhile (fun c => c != '_') = "abcd".data
    ∧ ("abcd" : String) ≠ "ab"
    ∧ ("sk" : String) ≠ "" :=
  ⟨rfl, rfl, rfl, by decide, by decide⟩

/-- C8 (amended): getSuffix selects the first file of the sorted listing
whose full name textually starts with the hex-encoded identifier — the
match is not anchored at the first underscore — and classifies its name
by ending (sk, pk, key, otherwise none); consequently an identifier whose
hex encoding is a strict prefix of another stored identifier's hex
encoding can select the longer identifier's file. -/
theorem c8_suffix_first_textual_match :
    (∀ (files : List KFile) (als : String),
      getSuffix files als =
        match (sortByName files).find? (fun f => strHasPre f.name als) with
        | none => ""
        | some f => suffixOf f.name)
    ∧ getSuffix [fileAbcdSk] (hexEncode [0xab]) = "sk" :=
  ⟨fun files als => getSuffixLoop_eq_find als (sortByName files), rfl⟩

/-- C5: the certificate importer dispatches a recognized (sm2) embedded
public key through its own CSP's registry under the sm2 object-import
options type, re-wrapping the caller's Ephemeral flag; when that registry
entry is the sm2 object importer the result equals importing the embedded
public-key object directly through the same registry, namely the wrapped
public key; a certificate whose public key is not of the recognized type
fails with the not-recognized error. Flattening faithfulness: running any
importer on a public-key object does not depend on which CSP it is
attached to. -/
theorem c5_cert_dispatch :
    ∀ (ext : Externals) (csp : CSP) (t : Bool) (k : Nat),
      (∀ imp2, csp.keyImporters OptsKind.sm2GoK = some imp2 →
        x509KeyImport ext csp (RawMaterial.cert ⟨CertPK.sm2cert k⟩) (KeyImportOpts.x509Opts t)
          = applyImporterToPub ext imp2 (PubObj.sm2Pub k) (KeyImportOpts.sm2GoOpts t))
      ∧ (csp.keyImporters OptsKind.sm2GoK = some ImporterK.sm2GoI →
        x509KeyImport ext csp (RawMaterial.cert ⟨CertPK.sm2cert k⟩) (KeyImportOpts.x509Opts t)
          = Except.ok (Key.sm2PublicKey k)
        ∧ runImporter ext csp ImporterK.sm2GoI (RawMaterial.pubObj (PubObj.sm2Pub k))
            (KeyImportOpts.sm2GoOpts t)
          = Except.ok (Key.sm2PublicKey k))
      ∧ (∀ cpk : CertPK, (∀ x, cpk ≠ CertPK.sm2cert x) →
        x509KeyImport ext csp (RawMaterial.cert ⟨cpk⟩) (KeyImportOpts.x509Opts t)
          = Except.error ImpError.certPKNotRecognized)
      ∧ (∀ (imp2 : ImporterK) (pk : PubObj) (o : KeyImportOpts),
        applyImporterToPub ext imp2 pk o
          = runImporter ext csp imp2 (RawMaterial.pubObj pk) o) := by
  intro ext csp t k
  refine ⟨fun imp2 h => ?_, fun h => ⟨?_, rfl⟩, fun cpk h => ?_, fun imp2 pk o => ?_⟩
  · simp [x509KeyImport, KeyImportOpts.Ephemeral, h]
  · simp [x509KeyImport, KeyImportOpts.Ephemeral, h, applyImporterToPub, sm2GoKeyImport]
  · cases cpk with
    | sm2cert x => exact absurd rfl (h x)
    | ecdsacert x => rfl
    | otherAlg n => rfl
  · cases imp2 <;> rfl

/-- C5 witness: with the concretely populated registry, importing a
certificate embedding the sm2 public key 9 equals importing that object
directly, and a certificate embedding an ECDSA public key is rejected. -/
theorem c5_cert_dispatch_witness :
    x509KeyImport ext0 csp0 (RawMaterial.cert ⟨CertPK.sm2cert 9⟩) (KeyImportOpts.x509Opts true)
      = Except.ok (Key.sm2PublicKey 9)
    ∧ runImporter ext0 csp0 ImporterK.sm2GoI (RawMaterial.pubObj (PubObj.sm2Pub 9))
        (KeyImportOpts.sm2GoOpts true)
      = Except.ok (Key.sm2PublicKey 9)
    ∧ x509KeyImport ext0 csp0 (RawMaterial.cert ⟨CertPK.ecdsacert 9⟩) (KeyImportOpts.x509Opts true)
      = Except.error ImpError.certPKNotRecognized := by
  have h := c5_cert_dispatch ext0 csp0 true 9
  have h2 := h.2.1 rfl
  exact ⟨h2.1, h2.2, h.2.2.1 (CertPK.ecdsacert 9) (fun x => by simp)⟩


/-- An entry the loop does not read (directory or oversized) contributes
no key. -/
theorem stepRes_none_of_not_read (ext : Externals) (pwd ski : List GByte) (f : KFile)
    (h : stepRead f = false) : stepRes ext pwd ski f = none := by
  cases hd : f.isDir with
  | true => simp [stepRes, hd]
  | false =>
    have hs : 65536 < f.size := by
      unfold stepRead at h
      simp [hd] at h
      omega
    simp [stepRes, hd, hs]

/-- An entry the loop reads is a regular file within the size ceiling. -/
theorem stepRead_true_spec (f : KFile) (h : stepRead f = true) :
    f.isDir = false ∧ f.size ≤ 65536 := by
  unfold stepRead at h
  cases hd : f.isDir with
  | true => simp [hd] at h
  | false =>
    simp [hd] at h
    exact ⟨rfl, h⟩

/-- One unrolling of the search loop, phrased through the read predicate
and the per-entry outcome: a skipped entry leaves trace and outcome
unchanged, a read entry is traced and either ends the loop with its key
or defers to the rest. -/
theorem searchLoop_cons (ext : Externals) (pwd : List GByte) (path : String) (ski : List GByte)
    (f : KFile) (rest : List KFile) :
    searchLoop ext pwd path ski (f :: rest) =
      if stepRead f = true then
        match stepRes ext pwd ski f with
        | some k => ([f.name], Except.ok k)
        | none =>
          (f.name :: (searchLoop ext pwd path ski rest).1, (searchLoop ext pwd path ski rest).2)
      else searchLoop ext pwd path ski rest := by
  cases hd : f.isDir with
  | true =>
    have hr : stepRead f = false := by simp [stepRead, hd]
    simp [searchLoop, hd, hr]
  | false =>
    by_cases hs : 65536 < f.size
    · have hr : stepRead f = false := by
        simp [stepRead, hd]
        omega
      simp [searchLoop, hd, hs, hr]
    · have hr : stepRead f = true := by
        simp [stepRead, hd]
        omega
      cases hc : f.content with
      | none => simp [searchLoop, stepRes, hd, hs, hc, hr]
      | some raw =>
        cases hdec : ext.pemToPrivateKey raw pwd with
        | none => simp [searchLoop, stepRes, hd, hs, hc, hdec, hr]
        | some po =>
          cases po with
          | ecdsaPriv x =>
            by_cases hski : (Key.ecdsaPrivateKey x).SKI ext = ski
            · simp [searchLoop, stepRes, hd, hs, hc, hdec, hski, hr]
            · simp [searchLoop, stepRes, hd, hs, hc, hdec, hski, hr]
          | sm2Priv x =>
            by_cases hski : (Key.sm2PrivateKey x).SKI ext = ski
            · simp [searchLoop, stepRes, hd, hs, hc, hdec, hski, hr]
            · simp [searchLoop, stepRes, hd, hs, hc, hdec, hski, hr]
          | unknownPriv n => simp [searchLoop, stepRes, hd, hs, hc, hdec, hr]

/-- The outcome of the search loop is exactly the first per-entry hit:
the key of the first entry whose iteration yields one, otherwise the
not-found error carrying the requested identifier and the store path. -/
theorem searchLoop_snd_eq (ext : Externals) (pwd : List GByte) (path : String) (ski : List GByte) :
    ∀ l : List KFile,
      (searchLoop ext pwd path ski l).2 =
        match firstKey (stepRes ext pwd ski) l with
        | some k => Except.ok k
        | none => Except.error (KSError.keyNotFound ski path) := by
  intro l
  induction l with
  | nil => rfl
  | cons f rest ih =>
    rw [searchLoop_cons]
    by_cases hr : stepRead f = true
    · rw [if_pos hr]
      cases h0 : stepRes ext pwd ski f with
      | some k => simp [firstKey, h0]
      | none => simp [firstKey, h0, ih]
    · rw [if_neg hr]
      have h0 := stepRes_none_of_not_read ext pwd ski f (Bool.not_eq_true _ ▸ eq_false_of_ne_true hr)
      simp [firstKey, h0, ih]

/-- firstKey misses exactly when every entry misses. -/
theorem firstKey_none_iff (g : KFile → Option Key) :
    ∀ l : List KFile, firstKey g l = none ↔ ∀ f ∈ l, g f = none := by
  intro l
  induction l with
  | nil => simp [firstKey]
  | cons f rest ih =>
    cases h : g f with
    | some k => simp [firstKey, h]
    | none => simp [firstKey, h, ih]

/-- A firstKey hit splits the listing into an all-miss head, the hit
entry, and a tail. -/
theorem firstKey_some_first (g : KFile → Option Key) :
    ∀ (l : List KFile) (k : Key), firstKey g l = some k →
      ∃ l1 f l2, l = l1 ++ f :: l2 ∧ g f = some k ∧ ∀ f' ∈ l1, g f' = none := by
  intro l
  induction l with
  | nil => intro k h; simp [firstKey] at h
  | cons f rest ih =>
    intro k h
    cases hf : g f with
    | some k2 =>
      have hk : k2 = k := by simpa [firstKey, hf] using h
      subst hk
      exact ⟨[], f, rest, rfl, hf, by simp⟩
    | none =>
      have h2 : firstKey g rest = some k := by simpa [firstKey, hf] using h
      obtain ⟨l1, f1, l2, heq, hg, hall⟩ := ih k h2
      refine ⟨f :: l1, f1, l2, by simp [heq], hg, ?_⟩
      intro f' hf'
      rcases List.mem_cons.mp hf' with h' | h'
      · rw [h']; exact hf
      · exact hall f' h'

/-- Every name in the read trace belongs to a regular, small-enough
entry of the scanned listing. -/
theorem searchLoop_reads_sub (ext : Externals) (pwd : List GByte) (path : String)
    (ski : List GByte) :
    ∀ l : List KFile, ∀ n ∈ (searchLoop ext pwd path ski l).1,
      ∃ f, f ∈ l ∧ f.name = n ∧ stepRead f = true := by
  intro l
  induction l with
  | nil => intro n h; simp [searchLoop] at h
  | cons f rest ih =>
    intro n h
    rw [searchLoop_cons] at h
    by_cases hr : stepRead f = true
    · rw [if_pos hr] at h
      cases h0 : stepRes ext pwd ski f with
      | some k =>
        rw [h0] at h
        simp at h
        exact ⟨f, List.mem_cons_self f rest, h.symm, hr⟩
      | none =>
        rw [h0] at h
        simp at h
        rcases h with h | h
        · exact ⟨f, List.mem_cons_self f rest, h.symm, hr⟩
        · obtain ⟨f1, h1, h2, h3⟩ := ih n h
          exact ⟨f1, List.mem_cons_of_mem f h1, h2, h3⟩
    · rw [if_neg hr] at h
      obtain ⟨f1, h1, h2, h3⟩ := ih n h
      exact ⟨f1, List.mem_cons_of_mem f h1, h2, h3⟩

/-- When the scan ends in an error, every regular entry within the size
ceiling was read. -/
theorem searchLoop_error_reads (ext : Externals) (pwd : List GByte) (path : String)
    (ski : List GByte) :
    ∀ (l : List KFile) (e : KSError), (searchLoop ext pwd path ski l).2 = Except.error e →
      ∀ f ∈ l, stepRead f = true → f.name ∈ (searchLoop ext pwd path ski l).1 := by
  intro l
  induction l with
  | nil => intro e _ f hf; simp at hf
  | cons f rest ih =>
    intro e herr g hg hgr
    rw [searchLoop_cons] at herr ⊢
    by_cases hr : stepRead f = true
    · rw [if_pos hr] at herr ⊢
      cases h0 : stepRes ext pwd ski f with
      | some k =>
        simp only [h0] at herr
        simp at herr
      | none =>
        simp only [h0] at herr ⊢
        have herr2 : (searchLoop ext pwd path ski rest).2 = Except.error e := herr
        rcases List.mem_cons.mp hg with h | h
        · rw [h]
          show f.name ∈ f.name :: (searchLoop ext pwd path ski rest).1
          exact List.mem_cons_self _ _
        · show g.name ∈ f.name :: (searchLoop ext pwd path ski rest).1
          exact List.mem_cons_of_mem _ (ih e herr2 g h hgr)
    · rw [if_neg hr] at herr ⊢
      rcases List.mem_cons.mp hg with h | h
      · rw [h] at hgr; exact absurd hgr hr
      · exact ih e herr g h hgr

/-- A per-entry hit is always a private key (ECDSA or SM2). -/
theorem stepRes_some_shape (ext : Externals) (pwd ski : List GByte) (f : KFile) (k : Key)
    (h : stepRes ext pwd ski f = some k) :
    (∃ x, k = Key.ecdsaPrivateKey x) ∨ ∃ x, k = Key.sm2PrivateKey x := by
  cases hd : f.isDir with
  | true => simp [stepRes, hd] at h
  | false =>
    by_cases hs : 65536 < f.size
    · simp [stepRes, hd, hs] at h
    · cases hc : f.content with
      | none => simp [stepRes, hd, hs, hc] at h
      | some raw =>
        cases hdec : ext.pemToPrivateKey raw pwd with
        | none => simp [stepRes, hd, hs, hc, hdec] at h
        | some po =>
          cases po with
          | ecdsaPriv x =>
            by_cases hski : (Key.ecdsaPrivateKey x).SKI ext = ski
            · simp [stepRes, hd, hs, hc, hdec, hski] at h
              exact Or.inl ⟨x, h.symm⟩
            · simp [stepRes, hd, hs, hc, hdec, hski] at h
          | sm2Priv x =>
            by_cases hski : (Key.sm2PrivateKey x).SKI ext = ski
            · simp [stepRes, hd, hs, hc, hdec, hski] at h
              exact Or.inr ⟨x, h.symm⟩
            · simp [stepRes, hd, hs, hc, hdec, hski] at h
          | unknownPriv n => simp [stepRes, hd, hs, hc, hdec] at h

/-- Membership is preserved by sorted insertion. -/
theorem mem_insertFile (f : KFile) :
    ∀ (l : List KFile) (a : KFile), a ∈ insertFile f l ↔ a = f ∨ a ∈ l := by
  intro l
  induction l with
  | nil => intro a; simp [insertFile]
  | cons g gs ih =>
    intro a
    by_cases h : nameLe f.name g.name = true
    · simp [insertFile, h, List.mem_cons]
    · simp [insertFile, h, List.mem_cons, ih]
      tauto

/-- Sorting the listing preserves membership. -/
theorem mem_sortByName :
    ∀ (l : List KFile) (a : KFile), a ∈ sortByName l ↔ a ∈ l := by
  intro l
  induction l with
  | nil => intro a; simp [sortByName]
  | cons f fs ih => intro a; simp [sortByName, mem_insertFile, ih]

/-- C4: the fallback scan (i) returns the first per-entry hit of the
sorted listing, or the not-found error carrying the requested identifier
and the store path; (ii) a success comes from the first entry whose
iteration yields a key, all earlier entries yielding none; (iii) every
file it reads is a regular file of size at most 64 KiB — oversized files
and directories are never read; (iv) any error is exactly the not-found
error, and in that case every regular file within the ceiling was read;
(v) a returned key is always a private key, never public or symmetric;
(vi) GetKey runs exactly this scan when the suffix lookup finds no known
suffix for a non-empty identifier. -/
theorem c4_fallback_scan :
    ∀ (ext : Externals) (ks : FileBasedKeyStore) (files : List KFile) (ski : List GByte),
      ((searchKeystoreForSKI ext ks files ski).2 =
        match firstKey (stepRes ext ks.pwd ski) (sortByName files) with
        | some k => Except.ok k
        | none => Except.error (KSError.keyNotFound ski ks.path))
      ∧ (∀ k, (searchKeystoreForSKI ext ks files ski).2 = Except.ok k →
          ∃ l1 f l2, sortByName files = l1 ++ f :: l2
            ∧ stepRes ext ks.pwd ski f = some k
            ∧ ∀ f' ∈ l1, stepRes ext ks.pwd ski f' = none)
      ∧ (∀ n ∈ (searchKeystoreForSKI ext ks files ski).1,
          ∃ f, f ∈ files ∧ f.name = n ∧ f.isDir = false ∧ f.size ≤ 65536)
      ∧ (∀ e, (searchKeystoreForSKI ext ks files ski).2 = Except.error e →
          e = KSError.keyNotFound ski ks.path
          ∧ ∀ f ∈ files, f.isDir = false → f.size ≤ 65536 →
              f.name ∈ (searchKeystoreForSKI ext ks files ski).1)
      ∧ (∀ k, (searchKeystoreForSKI ext ks files ski).2 = Except.ok k →
          (∃ x, k = Key.ecdsaPrivateKey x) ∨ ∃ x, k = Key.sm2PrivateKey x)
      ∧ (ski.length ≠ 0 → getSuffix files (hexEncode ski) = "" →
          GetKey ext ks files ski = (searchKeystoreForSKI ext ks files ski).2) := by
  intro ext ks files ski
  have hchar : (searchKeystoreForSKI ext ks files ski).2 =
      match firstKey (stepRes ext ks.pwd ski) (sortByName files) with
      | some k => Except.ok k
      | none => Except.error (KSError.keyNotFound ski ks.path) :=
    searchLoop_snd_eq ext ks.pwd ks.path ski (sortByName files)
  have hfirst : ∀ k, (searchKeystoreForSKI ext ks files ski).2 = Except.ok k →
      firstKey (stepRes ext ks.pwd ski) (sortByName files) = some k := by
    intro k hk
    rw [hchar] at hk
    cases hfk : firstKey (stepRes ext ks.pwd ski) (sortByName files) with
    | some k2 =>
      rw [hfk] at hk
      simp at hk
      rw [hk]
    | none =>
      rw [hfk] at hk
      simp at hk
  refine ⟨hchar, ?_, ?_, ?_, ?_, ?_⟩
  · intro k hk
    exact firstKey_some_first _ _ _ (hfirst k hk)
  · intro n hn
    obtain ⟨f, hf, h2, h3⟩ := searchLoop_reads_sub ext ks.pwd ks.path ski (sortByName files) n hn
    obtain ⟨hd, hs⟩ := stepRead_true_spec f h3
    exact ⟨f, (mem_sortByName files f).mp hf, h2, hd, hs⟩
  · intro e he
    constructor
    · rw [hchar] at he
      cases hfk : firstKey (stepRes ext ks.pwd ski) (sortByName files) with
      | some k2 => rw [hfk] at he; simp at he
      | none =>
        rw [hfk] at he
        simp at he
        rw [he]
    · intro f hf h1 h2
      have hread : stepRead f = true := by simp [stepRead, h1, h2]
      exact searchLoop_error_reads ext ks.pwd ks.path ski (sortByName files) e he f
        ((mem_sortByName files f).mpr hf) hread
  · intro k hk
    obtain ⟨l1, f, l2, _, hstep, _⟩ := firstKey_some_first _ _ _ (hfirst k hk)
    exact stepRes_some_shape ext ks.pwd ski f k hstep
  · intro h1 h2
    unfold GetKey
    rw [if_neg h1]
    simp only []
    rw [h2]
    rfl

/-- C4 witness: scanning a directory with an oversized file (100000
bytes) and a small valid private-key file returns the sm2 private key 5;
the returned key is private; the read entry k1 is regular and within the
ceiling; and GetKey on that directory runs exactly the fallback scan. -/
theorem c4_fallback_scan_witness :
    (searchKeystoreForSKI ext0 ksOpen filesScan [5]).2 = Except.ok (Key.sm2PrivateKey 5)
    ∧ ((∃ x, Key.sm2PrivateKey 5 = Key.ecdsaPrivateKey x)
        ∨ (∃ x, Key.sm2PrivateKey 5 = Key.sm2PrivateKey x))
    ∧ (∃ f, f ∈ filesScan ∧ f.name = "k1" ∧ f.isDir = false ∧ f.size ≤ 65536)
    ∧ GetKey ext0 ksOpen filesScan [5] = (searchKeystoreForSKI ext0 ksOpen filesScan [5]).2 := by
  have h := c4_fallback_scan ext0 ksOpen filesScan [5]
  have hres : (searchKeystoreForSKI ext0 ksOpen filesScan [5]).2
      = Except.ok (Key.sm2PrivateKey 5) := by
    rw [h.1]
    rfl
  have hmem : "k1" ∈ (searchKeystoreForSKI ext0 ksOpen filesScan [5]).1 := by
    have he : (searchKeystoreForSKI ext0 ksOpen filesScan [5]).1 = ["k1"] := rfl
    rw [he]
    exact List.mem_singleton.mpr rfl
  exact ⟨hres, h.2.2.2.2.1 _ hres, h.2.2.1 "k1" hmem, h.2.2.2.2.2 (by decide) rfl⟩
